import Mathlib

/-!
Verification of the preprocessing / volume-assembly / inference-orchestration
pipeline of `src/Deploy/app.py` (brain-tumor segmentation app).

Numpy arrays are embedded as an untyped `NDArray`: a shape (list of
dimension extents) together with a total data function from index lists to
rationals (values at out-of-range indices are irrelevant; every property is
stated on valid indices).  Machine floats are modelled by `ℚ`; the values
the pipeline produces (argmax indices, min-max-scaled intensities) are exact
rationals, so no rounding is involved in the claims checked here.
-/

namespace App

/-- An n-dimensional numeric array: a shape together with a data function on
index lists.  `data` is total; only its values at indices valid for `shape`
matter. -/
structure NDArray where
  shape : List Nat
  data : List Nat → ℚ

/-- `ix` is a valid index into shape `s`: same length, each coordinate in
range. -/
def ValidIx (s : List Nat) (ix : List Nat) : Prop :=
  ix.length = s.length ∧ ∀ p : Nat, p < s.length → ix.getD p 0 < s.getD p 0

instance (s ix : List Nat) : Decidable (ValidIx s ix) := by
  unfold ValidIx; infer_instance

/-- Maximum of a list of rationals (0 on the empty list, as a junk value). -/
def listMax : List ℚ → ℚ
  | [] => 0
  | x :: xs => xs.foldl max x

/-- Minimum of a list of rationals (0 on the empty list, as a junk value). -/
def listMin : List ℚ → ℚ
  | [] => 0
  | x :: xs => xs.foldl min x

/-- Index of the first occurrence of the maximum of a list: the semantics of
`np.argmax` on one axis (ties resolve to the lowest index). -/
def listArgmax : List ℚ → Nat
  | [] => 0
  | [_] => 0
  | x :: y :: ys => if listMax (y :: ys) ≤ x then 0 else listArgmax (y :: ys) + 1

/-- `np.expand_dims(a, axis=0)`: prepend a batch dimension of extent 1. -/
def expandDims0 (a : NDArray) : NDArray :=
  { shape := 1 :: a.shape
    data := fun ix => a.data ix.tail }

/-- `np.stack([a0,a1,a2,a3], axis=3)`: insert a new axis of extent 4 at
position 3.  (numpy requires the four shapes to be equal and of rank ≥ 3;
the claims using this always supply equal-shaped rank-3 inputs.) -/
def np_stack4_axis3 (a0 a1 a2 a3 : NDArray) : NDArray :=
  { shape := a0.shape.take 3 ++ 4 :: a0.shape.drop 3
    data := fun ix =>
      let sel := match ix.getD 3 0 with
        | 0 => a0
        | 1 => a1
        | 2 => a2
        | _ => a3
      sel.data (ix.take 3 ++ ix.drop 4) }

/-- Basic slicing `a[56:184, 56:184, 13:141]` on the first three axes
(numpy clamps the stop bound to the extent; `Nat` subtraction supplies the
clamp at 0). -/
def slice3 (a : NDArray) : NDArray :=
  { shape :=
      match a.shape with
      | d0 :: d1 :: d2 :: rest =>
          (min 184 d0 - 56) :: (min 184 d1 - 56) :: (min 141 d2 - 13) :: rest
      | s => s
    data := fun ix =>
      match ix with
      | i :: j :: k :: rest => a.data ((i + 56) :: (j + 56) :: (k + 13) :: rest)
      | ix => a.data ix }

/-- `np.argmax(a, axis=ax)`: drop axis `ax` from the shape; at each
remaining index, the value is the first index along axis `ax` attaining the
maximum. -/
def argmaxAxis (a : NDArray) (ax : Nat) : NDArray :=
  { shape := a.shape.take ax ++ a.shape.drop (ax + 1)
    data := fun ix =>
      (listArgmax ((List.range (a.shape.getD ax 0)).map
        (fun c => a.data (ix.take ax ++ c :: ix.drop ax))) : ℚ) }

/-- `a[0, :, :, :]`: select index 0 on the leading axis. -/
def selectBatch0 (a : NDArray) : NDArray :=
  { shape := a.shape.drop 1
    data := fun ix => a.data (0 :: ix) }

/-- All valid index lists for a shape, in C (row-major) order. -/
def allIdx : List Nat → List (List Nat)
  | [] => [[]]
  | d :: ds => (List.range d).flatMap fun i => (allIdx ds).map (i :: ·)

/-- The values of the column `k` of `image.reshape(-1, image.shape[-1])`:
entry `[i₀,…,iₙ₋₂,k]` for every choice of leading coordinates. -/
def colValues (a : NDArray) (k : Nat) : List ℚ :=
  (allIdx a.shape.dropLast).map fun ix => a.data (ix ++ [k])

/-- `preprocess_nifti` minus the file read: `MinMaxScaler().fit_transform` on
`image.reshape(-1, image.shape[-1])`, reshaped back to `image.shape`.  Each
index `k` along the last axis is one scaler feature, rescaled by its own min
and max over all leading positions; sklearn replaces a zero range by 1. -/
def preprocess_nifti (a : NDArray) : NDArray :=
  { shape := a.shape
    data := fun ix =>
      let k := ix.getLastD 0
      let col := colValues a k
      let mn := listMin col
      let mx := listMax col
      let denom := if mx - mn = 0 then 1 else mx - mn
      (a.data ix - mn) / denom }

/-- `combine_channels`: stack the four modalities along a new axis 3, then
crop to `[56:184, 56:184, 13:141]`. -/
def combine_channels (t1n t1c t2f t2w : NDArray) : NDArray :=
  slice3 (np_stack4_axis3 t1n t1c t2f t2w)

/-- The model's `predict` capability: an opaque map on arrays. -/
abbrev Model := NDArray → NDArray

/-- `run_segmentation`: add a batch dimension, validate exactly 5 dimensions
(else report a shape error and return `None` without calling `predict`),
call `model.predict`, argmax over axis 4 and drop the batch dimension. -/
def run_segmentation (model : Model) (input_image : NDArray) : Option NDArray :=
  let batched := expandDims0 input_image
  if batched.shape.length ≠ 5 then none
  else some (selectBatch0 (argmaxAxis (model batched) 4))

/-- `mask.astype(np.uint8)`: truncate towards zero is `Int.floor` for the
non-negative label values involved; the wrap-around of the unsigned byte
cast is `% 256`. -/
def astype_uint8 (a : NDArray) : NDArray :=
  { shape := a.shape
    data := fun ix => ((⌊a.data ix⌋ % 256 : ℤ) : ℚ) }

/-- `mask[mask == 4] = 3`: remap label 4 to 3, elementwise. -/
def remap4to3 (a : NDArray) : NDArray :=
  { shape := a.shape
    data := fun ix => if a.data ix = 4 then 3 else a.data ix }

/-- `to_categorical(mask, num_classes)`: one-hot encoding along a new last
axis. -/
def to_categorical (a : NDArray) (numClasses : Nat) : NDArray :=
  { shape := a.shape ++ [numClasses]
    data := fun ix => if a.data ix.dropLast = (ix.getLastD 0 : ℚ) then 1 else 0 }

/-- The Ground-Truth Adapter (lines 160–163): uint8 cast, remap 4 → 3,
one-hot over 4 classes, argmax along axis 3. -/
def mask_argmax (mask : NDArray) : NDArray :=
  argmaxAxis (to_categorical (remap4to3 (astype_uint8 mask)) 4) 3

/-- The model-selection logic of the sidebar handler (lines 80–95).
`uploaded` is `none` when no model file was uploaded, otherwise the outcome
of `load_model` on the uploaded file (`Except.error` when deserialization
raises).  Returns the model used and whether an error was reported. -/
def choose_model (defaultModel : Model)
    (uploaded : Option (Except String Model)) : Model × Bool :=
  match uploaded with
  | none => (defaultModel, false)
  | some (Except.ok m) => (m, false)
  | some (Except.error _) => (defaultModel, true)

/-- Python `file.endswith(sfx)` on filenames modelled as character lists. -/
def endswith (f sfx : List Char) : Bool := sfx.isSuffixOf f

/-- The five path variables of the extraction scan (lines 114–118). -/
structure FoundPaths where
  t1n : Option (List Char)
  t1c : Option (List Char)
  t2f : Option (List Char)
  t2w : Option (List Char)
  seg : Option (List Char)
deriving DecidableEq

/-- All path variables start as `None`. -/
def initPaths : FoundPaths := ⟨none, none, none, none, none⟩

/-- One iteration of the inner scan loop (lines 121–131): the elif chain
assigns the matching path variable, overwriting any earlier match. -/
def scanFile (acc : FoundPaths) (file : List Char) : FoundPaths :=
  if endswith file "t1n.nii.gz".toList then { acc with t1n := some file }
  else if endswith file "t1c.nii.gz".toList then { acc with t1c := some file }
  else if endswith file "t2f.nii.gz".toList then { acc with t2f := some file }
  else if endswith file "t2w.nii.gz".toList then { acc with t2w := some file }
  else if endswith file "seg.nii.gz".toList then { acc with seg := some file }
  else acc

/-- The directory walk (lines 120–131), over the files in walk order. -/
def findPaths (walkFiles : List (List Char)) : FoundPaths :=
  walkFiles.foldl scanFile initPaths

/-- Outcome of the upload handler: the terminal states of the pipeline. -/
inductive PipelineResult where
  | missingInputFile : PipelineResult
  | combinedShapeError (s : List Nat) : PipelineResult
  | crashOnNone : PipelineResult
  | ok (prediction : NDArray) (outputFile : NDArray)
      (maskDisplay : Option NDArray) : PipelineResult

/-- The upload handler after path discovery (lines 133–216): require the
four modality paths, preprocess each, combine, check rank 4 (lines
148–149), segment, adapt the optional ground truth, and write the output
file from `segmentation_result` (the `astype(np.float32)` cast is exact on
the argmax label values, all < 4).  `load` stands for
`nib.load(path).get_fdata()`.  When `run_segmentation` returns `None` the
script would crash slicing `None` during plotting; `crashOnNone` records
that state. -/
def uploaded_folder_process (model : Model) (paths : FoundPaths)
    (load : List Char → NDArray) : PipelineResult :=
  match paths.t1n, paths.t1c, paths.t2f, paths.t2w with
  | some p1, some p2, some p3, some p4 =>
      let t1n := preprocess_nifti (load p1)
      let t1c := preprocess_nifti (load p2)
      let t2f := preprocess_nifti (load p3)
      let t2w := preprocess_nifti (load p4)
      let combined := combine_channels t1n t1c t2f t2w
      if combined.shape.length ≠ 4 then .combinedShapeError combined.shape
      else
        match run_segmentation model combined with
        | none => .crashOnNone
        | some result =>
            .ok result result (paths.seg.map fun pm => mask_argmax (load pm))
  | _, _, _, _ => .missingInputFile

/-- The whole `uploaded_folder` handler: walk, then process. -/
def uploaded_folder (model : Model) (walkFiles : List (List Char))
    (load : List Char → NDArray) : PipelineResult :=
  uploaded_folder_process model (findPaths walkFiles) load

/-- The predicted label volume of a pipeline outcome, when one exists. -/
def resultPrediction : PipelineResult → Option NDArray
  | .ok p _ _ => some p
  | _ => none

/-- The voxel contents of the downloadable output file, when one exists. -/
def resultOutputFile : PipelineResult → Option NDArray
  | .ok _ o _ => some o
  | _ => none

/-- Reading of the spec's amended duplicate-handling rule, for comparison
with the walk embedding: the file bound to a suffix is the last match of
the walk (the first match of the reversed walk order). -/
def lastMatch (sfx : List Char) (fs : List (List Char)) : Option (List Char) :=
  fs.reverse.find? fun f => endswith f sfx

/-! ### Concrete fixtures used by the witness theorems -/

/-- A 2×2×2 volume whose value is 0 on the `i = 0` half and 1 elsewhere. -/
def wVol3 : NDArray :=
  { shape := [2, 2, 2], data := fun ix => if ix.getD 0 0 = 0 then 0 else 1 }

/-- A constant volume of the BraTS shape (240, 240, 155). -/
def wVol240 : NDArray := { shape := [240, 240, 155], data := fun _ => 0 }

/-- A constant 1×1×1 volume. -/
def wVol1 : NDArray := { shape := [1, 1, 1], data := fun _ => 0 }

/-- A 1×1×2 annotation volume with values 4 and 2. -/
def wMask : NDArray :=
  { shape := [1, 1, 2], data := fun ix => if ix.getD 2 0 = 0 then 4 else 2 }

/-- The identity model. -/
def wModel : Model := fun a => a

/-- A crafted 1×2×2×2×4 probability tensor: at voxel (1,1,1) all four class
probabilities tie at 1; at every other voxel class `(i + 2j + k) % 4` has
probability 2 and the rest 1. -/
def wPred : NDArray :=
  { shape := [1, 2, 2, 2, 4]
    data := fun ix =>
      if ix.getD 1 0 = 1 ∧ ix.getD 2 0 = 1 ∧ ix.getD 3 0 = 1 then 1
      else if ix.getD 4 0 = (ix.getD 1 0 + 2 * ix.getD 2 0 + ix.getD 3 0) % 4 then 2
      else 1 }

/-- A constant 2×2×2×4 combined volume. -/
def wIn4 : NDArray := { shape := [2, 2, 2, 4], data := fun _ => 0 }

/-- A model that always returns the crafted probability tensor. -/
def wModelPred : Model := fun _ => wPred

/-- A loader returning the same small volume for every path. -/
def wLoad : List Char → NDArray := fun _ => wVol3

/-- A walk listing with the t2w modality file missing. -/
def wWalkMissing : List (List Char) :=
  ["case_t1n.nii.gz".toList, "case_t1c.nii.gz".toList,
   "case_t2f.nii.gz".toList, "case_seg.nii.gz".toList]

/-! ### Helper lemmas about list maxima, minima and argmax -/

lemma le_foldl_max (xs : List ℚ) (a : ℚ) : a ≤ xs.foldl max a := by
  induction xs generalizing a with
  | nil => exact le_refl a
  | cons x xs ih => exact le_trans (le_max_left a x) (ih (max a x))

lemma mem_le_foldl_max {x : ℚ} {xs : List ℚ} (a : ℚ) (hx : x ∈ xs) :
    x ≤ xs.foldl max a := by
  induction xs generalizing a with
  | nil => cases hx
  | cons y xs ih =>
    rcases List.mem_cons.mp hx with h | h
    · subst h
      exact le_trans (le_max_right a x) (le_foldl_max xs (max a x))
    · exact ih (max a y) h

lemma foldl_max_eq_or_mem (xs : List ℚ) (a : ℚ) :
    xs.foldl max a = a ∨ xs.foldl max a ∈ xs := by
  induction xs generalizing a with
  | nil => exact Or.inl rfl
  | cons x xs ih =>
    rcases ih (max a x) with h | h
    · rcases max_choice a x with hc | hc
      · exact Or.inl (by rw [List.foldl_cons, h, hc])
      · exact Or.inr (by rw [List.foldl_cons, h, hc]; exact List.mem_cons_self x xs)
    · exact Or.inr (List.mem_cons_of_mem x h)

lemma le_listMax {x : ℚ} {l : List ℚ} (hx : x ∈ l) : x ≤ listMax l := by
  cases l with
  | nil => cases hx
  | cons y ys =>
    rcases List.mem_cons.mp hx with h | h
    · subst h; exact le_foldl_max ys x
    · exact mem_le_foldl_max y h

lemma listMax_mem {l : List ℚ} (hl : l ≠ []) : listMax l ∈ l := by
  cases l with
  | nil => exact absurd rfl hl
  | cons y ys =>
    rcases foldl_max_eq_or_mem ys y with h | h
    · rw [listMax, h]; exact List.mem_cons_self y ys
    · exact List.mem_cons_of_mem y h

lemma foldl_min_le (xs : List ℚ) (a : ℚ) : xs.foldl min a ≤ a := by
  induction xs generalizing a with
  | nil => exact le_refl a
  | cons x xs ih => exact le_trans (ih (min a x)) (min_le_left a x)

lemma foldl_min_le_mem {x : ℚ} {xs : List ℚ} (a : ℚ) (hx : x ∈ xs) :
    xs.foldl min a ≤ x := by
  induction xs generalizing a with
  | nil => cases hx
  | cons y xs ih =>
    rcases List.mem_cons.mp hx with h | h
    · subst h
      exact le_trans (foldl_min_le xs (min a x)) (min_le_right a x)
    · exact ih (min a y) h

lemma foldl_min_eq_or_mem (xs : List ℚ) (a : ℚ) :
    xs.foldl min a = a ∨ xs.foldl min a ∈ xs := by
  induction xs generalizing a with
  | nil => exact Or.inl rfl
  | cons x xs ih =>
    rcases ih (min a x) with h | h
    · rcases min_choice a x with hc | hc
      · exact Or.inl (by rw [List.foldl_cons, h, hc])
      · exact Or.inr (by rw [List.foldl_cons, h, hc]; exact List.mem_cons_self x xs)
    · exact Or.inr (List.mem_cons_of_mem x h)

lemma listMin_le {x : ℚ} {l : List ℚ} (hx : x ∈ l) : listMin l ≤ x := by
  cases l with
  | nil => cases hx
  | cons y ys =>
    rcases List.mem_cons.mp hx with h | h
    · subst h; exact foldl_min_le ys x
    · exact foldl_min_le_mem y h

lemma listMin_mem {l : List ℚ} (hl : l ≠ []) : listMin l ∈ l := by
  cases l with
  | nil => exact absurd rfl hl
  | cons y ys =>
    rcases foldl_min_eq_or_mem ys y with h | h
    · rw [listMin, h]; exact List.mem_cons_self y ys
    · exact List.mem_cons_of_mem y h

lemma foldl_max_max (xs : List ℚ) (a b : ℚ) :
    xs.foldl max (max a b) = max a (xs.foldl max b) := by
  induction xs generalizing b with
  | nil => rfl
  | cons c xs ih =>
    rw [List.foldl_cons, max_assoc, ih (max b c), List.foldl_cons]

lemma listMax_cons₂ (x y : ℚ) (ys : List ℚ) :
    listMax (x :: y :: ys) = max x (listMax (y :: ys)) := by
  show (y :: ys).foldl max x = max x (ys.foldl max y)
  rw [List.foldl_cons, ← foldl_max_max]

lemma listArgmax_lt_length {l : List ℚ} (hl : l ≠ []) :
    listArgmax l < l.length := by
  induction l with
  | nil => exact absurd rfl hl
  | cons x xs ih =>
    cases xs with
    | nil => simp [listArgmax]
    | cons y ys =>
      rw [listArgmax]
      split
      · simp
      · have := ih (by simp)
        simpa [Nat.succ_lt_succ_iff] using this

lemma listArgmax_getD {l : List ℚ} (hl : l ≠ []) :
    l.getD (listArgmax l) 0 = listMax l := by
  induction l with
  | nil => exact absurd rfl hl
  | cons x xs ih =>
    cases xs with
    | nil => rfl
    | cons y ys =>
      rw [listArgmax, listMax_cons₂]
      split
      · rename_i h
        simpa using (max_eq_left h).symm
      · rename_i h
        have hx : x ≤ listMax (y :: ys) := le_of_lt (lt_of_not_le h)
        simpa [max_eq_right hx] using ih (by simp)

lemma listArgmax_getD_lt {l : List ℚ} {j : Nat} (hj : j < listArgmax l) :
    l.getD j 0 < listMax l := by
  induction l generalizing j with
  | nil => simp [listArgmax] at hj
  | cons x xs ih =>
    cases xs with
    | nil => simp [listArgmax] at hj
    | cons y ys =>
      rw [listArgmax] at hj
      rw [listMax_cons₂]
      split at hj
      · exact absurd hj (Nat.not_lt_zero j)
      · rename_i h
        have hx : x < listMax (y :: ys) := lt_of_not_le h
        cases j with
        | zero => simpa [max_eq_right (le_of_lt hx)] using hx
        | succ j =>
          have := ih (Nat.lt_of_succ_lt_succ hj)
          simpa [max_eq_right (le_of_lt hx)] using this

lemma mem_allIdx_pair {d0 d1 i j : Nat} (hi : i < d0) (hj : j < d1) :
    [i, j] ∈ allIdx [d0, d1] := by
  simp only [allIdx, List.mem_flatMap, List.mem_map, List.mem_range]
  exact ⟨i, hi, ⟨[j], ⟨j, hj, ⟨[], by simp [allIdx], rfl⟩⟩, rfl⟩⟩

/-! ### Helper lemmas about the directory walk -/

lemma endswith_unique {f s1 s2 : List Char} (h1 : endswith f s1 = true)
    (h2 : endswith f s2 = true) (hlen : s1.length = s2.length) : s1 = s2 := by
  rw [endswith, List.isSuffixOf_iff_suffix] at h1 h2
  exact List.IsSuffix.eq_of_length
    (List.suffix_of_suffix_length_le h1 h2 (le_of_eq hlen)) hlen

lemma endswith_excl {f s1 s2 : List Char} (hne : s1 ≠ s2)
    (hlen : s1.length = s2.length) (h1 : endswith f s1 = true) :
    endswith f s2 = false := by
  cases h2 : endswith f s2 with
  | false => rfl
  | true => exact absurd (endswith_unique h1 h2 hlen) hne

lemma find?_append_elim {α : Type} (l₁ l₂ : List α) (p : α → Bool) :
    (l₁ ++ l₂).find? p = (l₁.find? p).elim (l₂.find? p) some := by
  induction l₁ with
  | nil => rfl
  | cons x l₁ ih =>
    cases hx : p x with
    | true => simp [List.find?, hx]
    | false => simp [List.find?, hx, ih]

lemma scanFile_t1n (acc : FoundPaths) (f : List Char) :
    (scanFile acc f).t1n =
      if endswith f "t1n.nii.gz".toList then some f else acc.t1n := by
  rw [scanFile]
  split_ifs <;> rfl

lemma scanFile_t1c (acc : FoundPaths) (f : List Char) :
    (scanFile acc f).t1c =
      if endswith f "t1c.nii.gz".toList then some f else acc.t1c := by
  rw [scanFile]
  cases h0 : endswith f "t1n.nii.gz".toList with
  | true =>
    rw [endswith_excl (show "t1n.nii.gz".toList ≠ "t1c.nii.gz".toList by decide)
      (by decide) h0]
    simp [h0]
  | false => simp only [h0, Bool.false_eq_true, if_false]; split_ifs <;> rfl

lemma scanFile_t2f (acc : FoundPaths) (f : List Char) :
    (scanFile acc f).t2f =
      if endswith f "t2f.nii.gz".toList then some f else acc.t2f := by
  rw [scanFile]
  cases h0 : endswith f "t1n.nii.gz".toList with
  | true =>
    rw [endswith_excl (show "t1n.nii.gz".toList ≠ "t2f.nii.gz".toList by decide)
      (by decide) h0]
    simp [h0]
  | false =>
    cases h1 : endswith f "t1c.nii.gz".toList with
    | true =>
      rw [endswith_excl (show "t1c.nii.gz".toList ≠ "t2f.nii.gz".toList by decide)
        (by decide) h1]
      simp [h0, h1]
    | false => simp only [h0, h1, Bool.false_eq_true, if_false]; split_ifs <;> rfl

lemma scanFile_t2w (acc : FoundPaths) (f : List Char) :
    (scanFile acc f).t2w =
      if endswith f "t2w.nii.gz".toList then some f else acc.t2w := by
  rw [scanFile]
  cases h0 : endswith f "t1n.nii.gz".toList with
  | true =>
    rw [endswith_excl (show "t1n.nii.gz".toList ≠ "t2w.nii.gz".toList by decide)
      (by decide) h0]
    simp [h0]
  | false =>
    cases h1 : endswith f "t1c.nii.gz".toList with
    | true =>
      rw [endswith_excl (show "t1c.nii.gz".toList ≠ "t2w.nii.gz".toList by decide)
        (by decide) h1]
      simp [h0, h1]
    | false =>
      cases h2 : endswith f "t2f.nii.gz".toList with
      | true =>
        rw [endswith_excl (show "t2f.nii.gz".toList ≠ "t2w.nii.gz".toList by decide)
          (by decide) h2]
        simp [h0, h1, h2]
      | false => simp only [h0, h1, h2, Bool.false_eq_true, if_false]; split_ifs <;> rfl

lemma scanFile_seg (acc : FoundPaths) (f : List Char) :
    (scanFile acc f).seg =
      if endswith f "seg.nii.gz".toList then some f else acc.seg := by
  rw [scanFile]
  cases h0 : endswith f "t1n.nii.gz".toList with
  | true =>
    rw [endswith_excl (show "t1n.nii.gz".toList ≠ "seg.nii.gz".toList by decide)
      (by decide) h0]
    simp [h0]
  | false =>
    cases h1 : endswith f "t1c.nii.gz".toList with
    | true =>
      rw [endswith_excl (show "t1c.nii.gz".toList ≠ "seg.nii.gz".toList by decide)
        (by decide) h1]
      simp [h0, h1]
    | false =>
      cases h2 : endswith f "t2f.nii.gz".toList with
      | true =>
        rw [endswith_excl (show "t2f.nii.gz".toList ≠ "seg.nii.gz".toList by decide)
          (by decide) h2]
        simp [h0, h1, h2]
      | false =>
        cases h3 : endswith f "t2w.nii.gz".toList with
        | true =>
          rw [endswith_excl (show "t2w.nii.gz".toList ≠ "seg.nii.gz".toList by decide)
            (by decide) h3]
          simp [h0, h1, h2, h3]
        | false => simp only [h0, h1, h2, h3, Bool.false_eq_true, if_false]; split_ifs <;> rfl

lemma foldl_scan_field (get : FoundPaths → Option (List Char)) (s : List Char)
    (hscan : ∀ acc f, get (scanFile acc f) =
      if endswith f s then some f else get acc) :
    ∀ (fs : List (List Char)) (acc : FoundPaths),
      get (fs.foldl scanFile acc) = (lastMatch s fs).elim (get acc) some := by
  intro fs
  induction fs with
  | nil => intro acc; rfl
  | cons f fs ih =>
    intro acc
    rw [List.foldl_cons, ih (scanFile acc f), hscan]
    rw [lastMatch, lastMatch, List.reverse_cons, find?_append_elim]
    cases hfind : fs.reverse.find? (fun g => endswith g s) with
    | some p => rfl
    | none => cases hef : endswith f s <;> simp [List.find?, hef]

lemma findPaths_fields (fs : List (List Char)) :
    (findPaths fs).t1n = lastMatch "t1n.nii.gz".toList fs ∧
    (findPaths fs).t1c = lastMatch "t1c.nii.gz".toList fs ∧
    (findPaths fs).t2f = lastMatch "t2f.nii.gz".toList fs ∧
    (findPaths fs).t2w = lastMatch "t2w.nii.gz".toList fs ∧
    (findPaths fs).seg = lastMatch "seg.nii.gz".toList fs := by
  refine ⟨?_, ?_, ?_, ?_, ?_⟩ <;>
    [rw [findPaths, foldl_scan_field (·.t1n) _ scanFile_t1n fs initPaths];
     rw [findPaths, foldl_scan_field (·.t1c) _ scanFile_t1c fs initPaths];
     rw [findPaths, foldl_scan_field (·.t2f) _ scanFile_t2f fs initPaths];
     rw [findPaths, foldl_scan_field (·.t2w) _ scanFile_t2w fs initPaths];
     rw [findPaths, foldl_scan_field (·.seg) _ scanFile_seg fs initPaths]] <;>
    cases lastMatch _ fs <;> rfl

lemma process_missing_of_none (model : Model) (paths : FoundPaths)
    (load : List Char → NDArray)
    (h : paths.t1n = none ∨ paths.t1c = none ∨ paths.t2f = none ∨
      paths.t2w = none) :
    uploaded_folder_process model paths load = PipelineResult.missingInputFile := by
  obtain ⟨a, b, c, d, e⟩ := paths
  rcases h with h | h | h | h <;> dsimp only at h <;> subst h
  · rfl
  · cases a <;> rfl
  · cases a <;> cases b <;> rfl
  · cases a <;> cases b <;> cases c <;> rfl

lemma process_not_missing (model : Model) (p1 p2 p3 p4 : List Char)
    (e : Option (List Char)) (load : List Char → NDArray) :
    uploaded_folder_process model ⟨some p1, some p2, some p3, some p4, e⟩ load ≠
      PipelineResult.missingInputFile := by
  intro h
  simp only [uploaded_folder_process] at h
  split at h
  · exact PipelineResult.noConfusion h
  · split at h <;> exact PipelineResult.noConfusion h

lemma argmaxAxis3_data (a : NDArray) (x y z n i j k : Nat)
    (hs : a.shape = [x, y, z, n]) :
    (argmaxAxis a 3).data [i, j, k] =
      ((listArgmax ((List.range n).map fun c => a.data [i, j, k, c]) : Nat) : ℚ) := by
  show ((listArgmax ((List.range (a.shape.getD 3 0)).map
    (fun c => a.data ([i, j, k].take 3 ++ c :: [i, j, k].drop 3))) : Nat) : ℚ) = _
  rw [hs]
  rfl

/-! ### Claim theorems -/

/-- C2: for every quadruple of equal-shaped 3-D volumes large enough to
contain the crop window, `combine_channels` yields an array of exactly 4
dimensions with last dimension exactly 4 and spatial dimensions exactly
128×128×128, stacking the inputs in the order T1n, T1c, T2f, T2w and
slicing X to [56,184), Y to [56,184), Z to [13,141). -/
theorem combine_channels_spec (t1n t1c t2f t2w : NDArray) (d0 d1 d2 : Nat)
    (h1 : t1n.shape = [d0, d1, d2]) (h2 : t1c.shape = [d0, d1, d2])
    (h3 : t2f.shape = [d0, d1, d2]) (h4 : t2w.shape = [d0, d1, d2])
    (hd0 : 184 ≤ d0) (hd1 : 184 ≤ d1) (hd2 : 141 ≤ d2) :
    (combine_channels t1n t1c t2f t2w).shape = [128, 128, 128, 4] ∧
    ∀ i, i < 128 → ∀ j, j < 128 → ∀ k, k < 128 →
      (combine_channels t1n t1c t2f t2w).data [i, j, k, 0] =
        t1n.data [i + 56, j + 56, k + 13] ∧
      (combine_channels t1n t1c t2f t2w).data [i, j, k, 1] =
        t1c.data [i + 56, j + 56, k + 13] ∧
      (combine_channels t1n t1c t2f t2w).data [i, j, k, 2] =
        t2f.data [i + 56, j + 56, k + 13] ∧
      (combine_channels t1n t1c t2f t2w).data [i, j, k, 3] =
        t2w.data [i + 56, j + 56, k + 13] := by
  constructor
  · have hst : (np_stack4_axis3 t1n t1c t2f t2w).shape = [d0, d1, d2, 4] := by
      simp [np_stack4_axis3, h1]
    show (slice3 (np_stack4_axis3 t1n t1c t2f t2w)).shape = [128, 128, 128, 4]
    rw [slice3, hst]
    simp only
    congr 1 <;> [omega; congr 1] <;> [skip; congr 1] <;> omega
  · intro i _ j _ k _
    exact ⟨rfl, rfl, rfl, rfl⟩

/-- C2 witness: the (240,240,155) instance. -/
theorem combine_channels_spec_witness :
    (combine_channels wVol240 wVol240 wVol240 wVol240).shape =
      [128, 128, 128, 4] :=
  (combine_channels_spec wVol240 wVol240 wVol240 wVol240 240 240 155
    rfl rfl rfl rfl (by decide) (by decide) (by decide)).1

/-- C5: after inserting the leading batch dimension, `run_segmentation`
returns no result exactly when the batched tensor is not 5-dimensional; in
that case the model is never invoked (the outcome is the same for every
model); when the batched tensor is 5-dimensional, the model is invoked
and a result is produced. -/
theorem run_segmentation_shape_gate (input : NDArray) (model : Model) :
    (run_segmentation model input = none ↔
      (expandDims0 input).shape.length ≠ 5) ∧
    ((expandDims0 input).shape.length ≠ 5 →
      ∀ m : Model, run_segmentation m input = run_segmentation model input) ∧
    ((expandDims0 input).shape.length = 5 →
      ∃ r, run_segmentation model input = some r) := by
  by_cases h : (expandDims0 input).shape.length = 5
  · refine ⟨?_, fun hn => absurd h hn, fun _ =>
      ⟨selectBatch0 (argmaxAxis (model (expandDims0 input)) 4), ?_⟩⟩ <;>
      simp [run_segmentation, h]
  · refine ⟨?_, fun _ m => ?_, fun h5 => absurd h5 h⟩ <;>
      simp [run_segmentation, h]

/-- C5 witness: a 3-D input batches to rank 4, so the gate reports a shape
error and returns `None`. -/
theorem run_segmentation_shape_gate_witness :
    run_segmentation wModel wVol3 = none ∧
    (expandDims0 wVol3).shape.length ≠ 5 :=
  ⟨(run_segmentation_shape_gate wVol3 wModel).1.mpr (by decide), by decide⟩

/-- C7: when the uploaded model file fails to deserialize the error is
reported and the default model is used (no abort); with no upload the
default model is used with no error; with a successful upload the uploaded
model is used. -/
theorem choose_model_spec (d : Model) :
    choose_model d none = (d, false) ∧
    (∀ m : Model, choose_model d (some (Except.ok m)) = (m, false)) ∧
    (∀ e : String, choose_model d (some (Except.error e)) = (d, true)) :=
  ⟨rfl, fun _ => rfl, fun _ => rfl⟩

/-- C9: for four equal-shaped 3-D volumes, stacking always yields exactly 4
dimensions, so the rank-4 check after combination cannot fail, and the
rank-5 check inside `run_segmentation` cannot fail either once the batch
dimension is added. -/
theorem rank_checks_unreachable (t1n t1c t2f t2w : NDArray) (d0 d1 d2 : Nat)
    (h1 : t1n.shape = [d0, d1, d2]) (h2 : t1c.shape = [d0, d1, d2])
    (h3 : t2f.shape = [d0, d1, d2]) (h4 : t2w.shape = [d0, d1, d2]) :
    (np_stack4_axis3 t1n t1c t2f t2w).shape.length = 4 ∧
    (combine_channels t1n t1c t2f t2w).shape.length = 4 ∧
    ∀ model : Model,
      ∃ r, run_segmentation model (combine_channels t1n t1c t2f t2w) = some r := by
  have hst : (np_stack4_axis3 t1n t1c t2f t2w).shape = [d0, d1, d2, 4] := by
    simp [np_stack4_axis3, h1]
  have hcs : (combine_channels t1n t1c t2f t2w).shape =
      [min 184 d0 - 56, min 184 d1 - 56, min 141 d2 - 13, 4] := by
    show (slice3 (np_stack4_axis3 t1n t1c t2f t2w)).shape = _
    rw [slice3, hst]
  refine ⟨by rw [hst]; rfl, by rw [hcs]; rfl, fun model =>
    ⟨selectBatch0
      (argmaxAxis (model (expandDims0 (combine_channels t1n t1c t2f t2w))) 4), ?_⟩⟩
  have h5 : (expandDims0 (combine_channels t1n t1c t2f t2w)).shape.length = 5 := by
    show ((1 : Nat) :: (combine_channels t1n t1c t2f t2w).shape).length = 5
    rw [hcs]; rfl
  simp [run_segmentation, h5]

/-- C9 witness: the checks pass at a concrete quadruple of 1×1×1 volumes. -/
theorem rank_checks_unreachable_witness :
    (np_stack4_axis3 wVol1 wVol1 wVol1 wVol1).shape.length = 4 ∧
    (combine_channels wVol1 wVol1 wVol1 wVol1).shape.length = 4 ∧
    ∃ r, run_segmentation wModel (combine_channels wVol1 wVol1 wVol1 wVol1) =
      some r :=
  let h := rank_checks_unreachable wVol1 wVol1 wVol1 wVol1 1 1 1 rfl rfl rfl rfl
  ⟨h.1, h.2.1, h.2.2 wModel⟩

/-- C1: for every 5-D probability tensor returned by the model, the value
of `run_segmentation` at each spatial location is the index of the maximum
probability across the last (class) axis, ties resolving to the lowest
index, and the leading batch dimension is dropped. -/
theorem run_segmentation_argmax (model : Model) (input : NDArray)
    (a b c nc : Nat) (hin : input.shape.length = 4)
    (hout : (model (expandDims0 input)).shape = [1, a, b, c, nc])
    (hnc : 0 < nc) :
    ∃ r, run_segmentation model input = some r ∧ r.shape = [a, b, c] ∧
      ∀ i, i < a → ∀ j, j < b → ∀ k, k < c →
        ∃ v : Nat, r.data [i, j, k] = (v : ℚ) ∧ v < nc ∧
          (∀ m, m < nc →
            (model (expandDims0 input)).data [0, i, j, k, m] ≤
              (model (expandDims0 input)).data [0, i, j, k, v]) ∧
          (∀ m, m < v →
            (model (expandDims0 input)).data [0, i, j, k, m] <
              (model (expandDims0 input)).data [0, i, j, k, v]) := by
  have h5 : (expandDims0 input).shape.length = 5 := by
    show ((1 : Nat) :: input.shape).length = 5
    simp [hin]
  refine ⟨selectBatch0 (argmaxAxis (model (expandDims0 input)) 4),
    by simp [run_segmentation, h5], ?_, ?_⟩
  · show ((model (expandDims0 input)).shape.take 4 ++
      (model (expandDims0 input)).shape.drop 5).drop 1 = [a, b, c]
    rw [hout]
    rfl
  · intro i hi j hj k hk
    have hdata : (selectBatch0 (argmaxAxis (model (expandDims0 input)) 4)).data
        [i, j, k] =
        ((listArgmax ((List.range nc).map fun m =>
          (model (expandDims0 input)).data [0, i, j, k, m]) : Nat) : ℚ) := by
      show ((listArgmax ((List.range ((model (expandDims0 input)).shape.getD 4 0)).map
        (fun m => (model (expandDims0 input)).data
          ((0 :: [i, j, k]).take 4 ++ m :: (0 :: [i, j, k]).drop 4))) : Nat) : ℚ) = _
      rw [hout]
      rfl
    set P : Nat → ℚ := fun m => (model (expandDims0 input)).data [0, i, j, k, m]
      with hP
    set L := (List.range nc).map P with hL
    have hlenL : L.length = nc := by simp [hL]
    have hne : L ≠ [] := by
      intro h0
      rw [h0] at hlenL
      exact absurd hlenL.symm (Nat.ne_of_gt hnc)
    have hget : ∀ m, m < nc → L.getD m 0 = P m := by
      intro m hm
      rw [List.getD_eq_getElem L 0 (by rw [hlenL]; exact hm)]
      simp [hL]
    have hvlt : listArgmax L < nc := by
      rw [← hlenL]
      exact listArgmax_lt_length hne
    have hmaxv : P (listArgmax L) = listMax L := by
      rw [← hget _ hvlt]
      exact listArgmax_getD hne
    refine ⟨listArgmax L, hdata, hvlt, ?_, ?_⟩
    · intro m hm
      have h1 : P m ≤ listMax L :=
        le_listMax (List.mem_map.mpr ⟨m, List.mem_range.mpr hm, rfl⟩)
      rw [← hmaxv] at h1
      exact h1
    · intro m hm
      have h1 : L.getD m 0 < listMax L := listArgmax_getD_lt hm
      rw [hget m (lt_trans hm hvlt), ← hmaxv] at h1
      exact h1

/-- C1 witness: the crafted (1,2,2,2,4) tensor: every voxel's label is the
index of its known maximum, and the all-tie voxel (1,1,1) resolves to
class 0. -/
theorem run_segmentation_argmax_witness :
    (wIn4.shape.length = 4 ∧
      (wModelPred (expandDims0 wIn4)).shape = [1, 2, 2, 2, 4] ∧ 0 < 4) ∧
    (∃ r, run_segmentation wModelPred wIn4 = some r ∧ r.shape = [2, 2, 2] ∧
      ∀ i, i < 2 → ∀ j, j < 2 → ∀ k, k < 2 →
        ∃ v : Nat, r.data [i, j, k] = (v : ℚ) ∧ v < 4 ∧
          (∀ m, m < 4 →
            (wModelPred (expandDims0 wIn4)).data [0, i, j, k, m] ≤
              (wModelPred (expandDims0 wIn4)).data [0, i, j, k, v]) ∧
          (∀ m, m < v →
            (wModelPred (expandDims0 wIn4)).data [0, i, j, k, m] <
              (wModelPred (expandDims0 wIn4)).data [0, i, j, k, v])) ∧
    (∀ i, i < 2 → ∀ j, j < 2 → ∀ k, k < 2 →
      (run_segmentation wModelPred wIn4).elim 0 (fun r => r.data [i, j, k]) =
        (((if i = 1 ∧ j = 1 ∧ k = 1 then 0 else (i + 2 * j + k) % 4) : Nat) : ℚ)) :=
  ⟨⟨by decide, by decide, by decide⟩,
    run_segmentation_argmax wModelPred wIn4 2 2 2 4 (by decide) (by decide)
      (by decide),
    by decide⟩

/-- C3: for a 3-D volume whose every last-axis index has non-degenerate
range, the Normalizer preserves the shape, rescales each last-axis index by
its own min and max, and every output value lies in [0, 1]. -/
theorem preprocess_nifti_spec (a : NDArray) (d0 d1 d2 : Nat)
    (h : a.shape = [d0, d1, d2])
    (hnd : ∀ k, k < d2 → listMin (colValues a k) < listMax (colValues a k)) :
    (preprocess_nifti a).shape = a.shape ∧
    ∀ i, i < d0 → ∀ j, j < d1 → ∀ k, k < d2 →
      (preprocess_nifti a).data [i, j, k] =
        (a.data [i, j, k] - listMin (colValues a k)) /
          (listMax (colValues a k) - listMin (colValues a k)) ∧
      0 ≤ (preprocess_nifti a).data [i, j, k] ∧
      (preprocess_nifti a).data [i, j, k] ≤ 1 := by
  refine ⟨rfl, ?_⟩
  intro i hi j hj k hk
  have hlt : listMin (colValues a k) < listMax (colValues a k) := hnd k hk
  have hne0 : listMax (colValues a k) - listMin (colValues a k) ≠ 0 :=
    sub_ne_zero.mpr (ne_of_gt hlt)
  have hdata : (preprocess_nifti a).data [i, j, k] =
      (a.data [i, j, k] - listMin (colValues a k)) /
        (listMax (colValues a k) - listMin (colValues a k)) := by
    show (a.data [i, j, k] - listMin (colValues a k)) /
        (if listMax (colValues a k) - listMin (colValues a k) = 0 then 1
          else listMax (colValues a k) - listMin (colValues a k)) = _
    rw [if_neg hne0]
  have hmem : a.data [i, j, k] ∈ colValues a k := by
    have hij : [i, j] ∈ allIdx a.shape.dropLast := by
      rw [h]
      exact mem_allIdx_pair hi hj
    exact List.mem_map.mpr ⟨[i, j], hij, rfl⟩
  have hlo : listMin (colValues a k) ≤ a.data [i, j, k] := listMin_le hmem
  have hhi : a.data [i, j, k] ≤ listMax (colValues a k) := le_listMax hmem
  refine ⟨hdata, ?_, ?_⟩
  · rw [hdata]
    exact div_nonneg (sub_nonneg.mpr hlo) (le_of_lt (sub_pos.mpr hlt))
  · rw [hdata, div_le_one (sub_pos.mpr hlt)]
    exact sub_le_sub_right hhi _

/-- C3 witness: the 2×2×2 fixture has non-degenerate range at both
last-axis indices, so the spec applies to it. -/
theorem preprocess_nifti_spec_witness :
    (∀ k, k < 2 → listMin (colValues wVol3 k) < listMax (colValues wVol3 k)) ∧
    (preprocess_nifti wVol3).shape = wVol3.shape :=
  ⟨by decide, (preprocess_nifti_spec wVol3 2 2 2 rfl (by decide)).1⟩

/-- C4: on an annotation volume with values in {0,1,2,4}, the Ground-Truth
Adapter maps 4 to 3, leaves 0, 1, 2 unchanged (the one-hot/argmax
round-trip returns exactly the remapped volume), keeps the spatial shape,
and confines output values to {0,1,2,3}. -/
theorem mask_argmax_spec (mask : NDArray) (d0 d1 d2 : Nat)
    (h : mask.shape = [d0, d1, d2])
    (hv : ∀ i, i < d0 → ∀ j, j < d1 → ∀ k, k < d2 →
      mask.data [i, j, k] = 0 ∨ mask.data [i, j, k] = 1 ∨
      mask.data [i, j, k] = 2 ∨ mask.data [i, j, k] = 4) :
    (mask_argmax mask).shape = mask.shape ∧
    ∀ i, i < d0 → ∀ j, j < d1 → ∀ k, k < d2 →
      (mask_argmax mask).data [i, j, k] =
        (if mask.data [i, j, k] = 4 then 3 else mask.data [i, j, k]) ∧
      ((mask_argmax mask).data [i, j, k] = 0 ∨
       (mask_argmax mask).data [i, j, k] = 1 ∨
       (mask_argmax mask).data [i, j, k] = 2 ∨
       (mask_argmax mask).data [i, j, k] = 3) := by
  have hcat : (to_categorical (remap4to3 (astype_uint8 mask)) 4).shape =
      [d0, d1, d2, 4] := by
    show mask.shape ++ [4] = _
    rw [h]
    rfl
  constructor
  · show (to_categorical (remap4to3 (astype_uint8 mask)) 4).shape.take 3 ++
      (to_categorical (remap4to3 (astype_uint8 mask)) 4).shape.drop 4 = mask.shape
    rw [hcat, h]
    rfl
  · intro i hi j hj k hk
    have hdata : (mask_argmax mask).data [i, j, k] =
        ((listArgmax ((List.range 4).map fun c =>
          if (if ((⌊mask.data [i, j, k]⌋ % 256 : ℤ) : ℚ) = 4 then 3
              else ((⌊mask.data [i, j, k]⌋ % 256 : ℤ) : ℚ)) = (c : ℚ) then (1 : ℚ)
          else 0) : Nat) : ℚ) := by
      rw [show (mask_argmax mask).data [i, j, k] = _ from
        argmaxAxis3_data _ d0 d1 d2 4 i j k hcat]
      rfl
    rcases hv i hi j hj k hk with h0 | h0 | h0 | h0 <;> rw [hdata, h0] <;>
      exact ⟨by decide, by decide⟩

/-- C4 witness: the 1×1×2 fixture with values 4 and 2 satisfies the value
precondition, so the adapter's contract applies to it; its shape is kept. -/
theorem mask_argmax_spec_witness :
    (∀ i, i < 1 → ∀ j, j < 1 → ∀ k, k < 2 →
      wMask.data [i, j, k] = 0 ∨ wMask.data [i, j, k] = 1 ∨
      wMask.data [i, j, k] = 2 ∨ wMask.data [i, j, k] = 4) ∧
    (mask_argmax wMask).shape = wMask.shape :=
  ⟨by decide, (mask_argmax_spec wMask 1 1 2 rfl (by decide)).1⟩

/-- C10: the optional ground-truth segmentation influences neither the
predicted label volume nor the voxel contents of the downloadable output
file: two runs agreeing on the four modality paths, the loader and the
model produce identical predictions and identical output files whatever
their `seg` bindings are. -/
theorem seg_noninterference (model : Model) (load : List Char → NDArray)
    (t1n t1c t2f t2w seg₁ seg₂ : Option (List Char)) :
    resultPrediction
        (uploaded_folder_process model ⟨t1n, t1c, t2f, t2w, seg₁⟩ load) =
      resultPrediction
        (uploaded_folder_process model ⟨t1n, t1c, t2f, t2w, seg₂⟩ load) ∧
    resultOutputFile
        (uploaded_folder_process model ⟨t1n, t1c, t2f, t2w, seg₁⟩ load) =
      resultOutputFile
        (uploaded_folder_process model ⟨t1n, t1c, t2f, t2w, seg₂⟩ load) := by
  cases t1n <;> cases t1c <;> cases t2f <;> cases t2w <;>
    first
    | exact ⟨rfl, rfl⟩
    | · simp only [uploaded_folder_process]
        split
        · exact ⟨rfl, rfl⟩
        · split <;> exact ⟨rfl, rfl⟩

/-- C8 counterexample: two files carry the t2w suffix; the walk binds the
second (last) match, not the first match. -/
theorem findPaths_first_match_counterexample :
    endswith "a_t2w.nii.gz".toList "t2w.nii.gz".toList = true ∧
    endswith "b_t2w.nii.gz".toList "t2w.nii.gz".toList = true ∧
    (findPaths ["a_t2w.nii.gz".toList, "b_t2w.nii.gz".toList]).t2w =
      some "b_t2w.nii.gz".toList ∧
    (findPaths ["a_t2w.nii.gz".toList, "b_t2w.nii.gz".toList]).t2w ≠
      some "a_t2w.nii.gz".toList := by decide

/-- C8 (amended): for every recognized suffix, the file bound to that
modality is the last match encountered during the directory walk (the
first match of the reversed walk order). -/
theorem findPaths_last_match (fs : List (List Char)) :
    (findPaths fs).t1n = lastMatch "t1n.nii.gz".toList fs ∧
    (findPaths fs).t1c = lastMatch "t1c.nii.gz".toList fs ∧
    (findPaths fs).t2f = lastMatch "t2f.nii.gz".toList fs ∧
    (findPaths fs).t2w = lastMatch "t2w.nii.gz".toList fs ∧
    (findPaths fs).seg = lastMatch "seg.nii.gz".toList fs :=
  findPaths_fields fs

/-- C6: when the walked file tree lacks one of the four required modality
suffixes the handler reports missing input files and aborts with no
prediction and no output file, for every model and loader (so no
normalization and no inference happen); when all four are present the
missing-file error does not fire, whether or not a seg file exists. -/
theorem missing_modality_aborts (walkFiles : List (List Char)) (model : Model)
    (load : List Char → NDArray) :
    (((∀ f ∈ walkFiles, endswith f "t1n.nii.gz".toList = false) ∨
      (∀ f ∈ walkFiles, endswith f "t1c.nii.gz".toList = false) ∨
      (∀ f ∈ walkFiles, endswith f "t2f.nii.gz".toList = false) ∨
      (∀ f ∈ walkFiles, endswith f "t2w.nii.gz".toList = false)) →
      uploaded_folder model walkFiles load = PipelineResult.missingInputFile ∧
      resultPrediction (uploaded_folder model walkFiles load) = none ∧
      resultOutputFile (uploaded_folder model walkFiles load) = none) ∧
    ((findPaths walkFiles).t1n.isSome ∧ (findPaths walkFiles).t1c.isSome ∧
      (findPaths walkFiles).t2f.isSome ∧ (findPaths walkFiles).t2w.isSome →
      uploaded_folder model walkFiles load ≠ PipelineResult.missingInputFile) := by
  constructor
  · intro hmiss
    obtain ⟨e1, e2, e3, e4, e5⟩ := findPaths_fields walkFiles
    have hnone : (findPaths walkFiles).t1n = none ∨
        (findPaths walkFiles).t1c = none ∨
        (findPaths walkFiles).t2f = none ∨
        (findPaths walkFiles).t2w = none := by
      rcases hmiss with hm | hm | hm | hm
      · refine Or.inl ?_
        rw [e1, lastMatch, List.find?_eq_none]
        intro x hx
        simpa using hm x (List.mem_reverse.mp hx)
      · refine Or.inr (Or.inl ?_)
        rw [e2, lastMatch, List.find?_eq_none]
        intro x hx
        simpa using hm x (List.mem_reverse.mp hx)
      · refine Or.inr (Or.inr (Or.inl ?_))
        rw [e3, lastMatch, List.find?_eq_none]
        intro x hx
        simpa using hm x (List.mem_reverse.mp hx)
      · refine Or.inr (Or.inr (Or.inr ?_))
        rw [e4, lastMatch, List.find?_eq_none]
        intro x hx
        simpa using hm x (List.mem_reverse.mp hx)
    have hres : uploaded_folder model walkFiles load =
        PipelineResult.missingInputFile :=
      process_missing_of_none model (findPaths walkFiles) load hnone
    exact ⟨hres, by rw [hres]; rfl, by rw [hres]; rfl⟩
  · rintro ⟨h1, h2, h3, h4⟩
    rw [uploaded_folder]
    rcases hfp : findPaths walkFiles with ⟨a, b, c, d, e⟩
    rw [hfp] at h1 h2 h3 h4
    cases a with
    | none => simp at h1
    | some p1 =>
      cases b with
      | none => simp at h2
      | some p2 =>
        cases c with
        | none => simp at h3
        | some p3 =>
          cases d with
          | none => simp at h4
          | some p4 => exact process_not_missing model p1 p2 p3 p4 e load

/-- C6 witness: an archive with t1n, t1c, t2f and seg but no t2w aborts
with the missing-input-file report. -/
theorem missing_modality_aborts_witness :
    uploaded_folder wModel wWalkMissing wLoad =
      PipelineResult.missingInputFile :=
  ((missing_modality_aborts wWalkMissing wModel wLoad).1
    (Or.inr (Or.inr (Or.inr (by decide))))).1

end App
